import Mathlib

/-!
Shallow embedding of `src/openstack-inventory.py` (an Ansible OpenStack
dynamic-inventory plugin) and proofs about the claims on its behaviour.

The embedding follows the Python source closely:
* an instance record (`Server`) is the dictionary returned by the SDK's
  `list_hosts`; optional dictionary keys become `Option` fields;
* `_populate_inventory_hosts` becomes `populateInventoryHosts`, producing the
  sequence of `_store_host_data` calls it performs;
* `_store_host_data` becomes `runStores` (it reads `server_data["interface_ip"]`
  unconditionally, so a record lacking that key raises `KeyError`; modelled
  with `Except`);
* `_get_group_names_from_server_data` becomes `getGroupNamesFromServerData`;
* `_populate_inventory_variables` becomes `populateInventoryVariables`
  (its second loop sits outside the per-host loop in the source, reusing the
  loop variable `host` after the loop: on an empty host table the variable is
  unbound and Python raises, modelled with `Except`);
* the config verification (`_verify_config_data`, `_verify_config_data_types`,
  `_load_and_verify_plugin_config`) is embedded over a small YAML value type;
* `verify_file` and `_get_openstack_clouds_inventory` are embedded directly.

Python string primitives used by the source (`str.split(",")`, `str.strip()`,
`str.endswith`) are re-implemented over `List Char` so that every definition
evaluates by kernel reduction.
-/

set_option maxHeartbeats 1000000

namespace OpenstackInventory

/-- Python `s.split(",")` helper: accumulates the current piece (reversed). -/
def splitCommaAux : List Char → List Char → List String
  | [], acc => [String.mk acc.reverse]
  | c :: cs, acc =>
    if c = ',' then String.mk acc.reverse :: splitCommaAux cs []
    else splitCommaAux cs (c :: acc)

/-- Python `s.split(",")`: split on every comma; pieces may be empty. -/
def pySplitComma (s : String) : List String :=
  splitCommaAux s.data []

/-- The whitespace set stripped by Python `str.strip()`. -/
def pyIsSpace (c : Char) : Bool :=
  c = ' ' || c = '\t' || c = '\n' || c = '\r' || c = '\x0b' || c = '\x0c'

/-- Python `s.strip()`: remove leading and trailing whitespace. -/
def pyStrip (s : String) : String :=
  String.mk (((s.data.dropWhile pyIsSpace).reverse.dropWhile pyIsSpace).reverse)

/-- Python `s.endswith(suffix)`. -/
def pyEndsWith (s sfx : String) : Bool :=
  decide (s.data.reverse.take sfx.data.length = sfx.data.reverse)

/-- The file name of a path: the part after the last `/`. -/
def fileName (path : String) : String :=
  String.mk ((path.data.reverse.takeWhile (fun c => c ≠ '/')).reverse)

/-- One instance record from the SDK's `list_hosts` result.  Keys that the
source reads unconditionally (`id`, `name`, `cloud`, `region`, `flavor`,
`image`) are plain fields; keys the source tests for presence
(`interface_ip`, `az`, `metadata`, and the `name` subkeys of `flavor` and
`image`) are `Option` or default-able fields.  `flavorName` and `imageName`
stand for `server_data["flavor"].get("name")` and
`server_data["image"].get("name")`. -/
structure Server where
  id : String
  name : String
  cloud : String
  region : String
  az : Option String
  interface_ip : Option String
  flavorName : Option String
  imageName : Option String
  metadata : List (String × String)
deriving DecidableEq, Repr

/-- One call to `_store_host_data(host, server_data, namegroup)`. -/
structure StoreCall where
  host : String
  server : Server
  namegroup : Bool
deriving DecidableEq, Repr

/-- `metadata.get("groups", "")` from the source. -/
def metadataGroupsValue (metadata : List (String × String)) : String :=
  match metadata.lookup "groups" with
  | some g => g
  | none => ""

/-- The metadata multi-group loop of the source (lines 382-384):
`for extra_group in metadata.get("groups", "").split(","): if extra_group:
append(extra_group.strip())`.  Note the non-emptiness test runs BEFORE the
strip. -/
def extraGroups (raw : String) : List String :=
  ((pySplitComma raw).filter (fun p => p ≠ "")).map pyStrip

/-- `_get_group_names_from_server_data` (source lines 359-409). -/
def getGroupNamesFromServerData (server_data : Server) (namegroup : Bool) :
    List String :=
  let region := server_data.region
  let cloud := server_data.cloud
  let metadata := server_data.metadata
  [cloud]
  ++ (if region ≠ "" then [region] else [])
  ++ [cloud ++ "_" ++ region]
  ++ (match metadata.lookup "group" with
      | some g => [g]
      | none => [])
  ++ extraGroups (metadataGroupsValue metadata)
  ++ ["instance-" ++ server_data.id]
  ++ (if namegroup then [server_data.name] else [])
  ++ (match server_data.flavorName with
      | some n => ["flavor-" ++ n]
      | none => [])
  ++ (match server_data.imageName with
      | some n => ["image-" ++ n]
      | none => [])
  ++ metadata.map (fun kv => "meta-" ++ kv.1 ++ "_" ++ kv.2)
  ++ (match server_data.az with
      | some az =>
        if az ≠ "" then
          [az, region ++ "_" ++ az, cloud ++ "_" ++ region ++ "_" ++ az]
        else []
      | none => [])

/-- The filtering loop of `_populate_inventory_hosts` (lines 324-327): keep a
record when it has `interface_ip` or `show_all` is set. -/
def filterUnreachable (show_all : Bool) (hosts_data : List Server) :
    List Server :=
  hosts_data.filter (fun s => s.interface_ip.isSome || show_all)

/-- One step of `self.servers[server["name"]].append(server)`: a
`defaultdict(list)` keyed by name, keys in first-insertion order. -/
def addToPartitions (ps : List (String × List Server)) (s : Server) :
    List (String × List Server) :=
  match ps with
  | [] => [(s.name, [s])]
  | (n, l) :: rest =>
    if n = s.name then (n, l ++ [s]) :: rest
    else (n, l) :: addToPartitions rest s

/-- The grouping of retained records by `name` (the `self.servers` dict). -/
def groupByName (ss : List Server) : List (String × List Server) :=
  ss.foldl addToPartitions []

/-- `use_server_id` (source line 321): set when `inventory_hostname` differs
from `"name"`. -/
def useServerIdFlag (inventory_hostname : String) : Bool :=
  inventory_hostname != "name"

/-- The per-name-partition branch of `_populate_inventory_hosts`
(lines 330-342), emitting the `_store_host_data` calls it performs. -/
def processPartition (use_server_id : Bool) (nm : String)
    (server_data : List Server) : List StoreCall :=
  if server_data.length = 1 ∧ use_server_id = false then
    match server_data with
    | s :: _ => [⟨nm, s, false⟩]
    | [] => []
  else if ((server_data.map Server.id).dedup).length = 1 ∧ use_server_id = false then
    match server_data with
    | s :: _ => [⟨nm, s, false⟩]
    | [] => []
  else
    server_data.map (fun s => ⟨s.id, s, true⟩)

/-- `_populate_inventory_hosts` (lines 319-342): filter, group by name, then
emit the sequence of `_store_host_data` calls. -/
def populateInventoryHosts (show_all use_server_id : Bool)
    (hosts_data : List Server) : List StoreCall :=
  (groupByName (filterUnreachable show_all hosts_data)).flatMap
    (fun p => processPartition use_server_id p.1 p.2)

/-- The per-host variable dictionary built by `_store_host_data`
(lines 346-350). -/
structure HostVars where
  ansible_ssh_host : String
  ansible_host : String
  openstack : Server
deriving DecidableEq, Repr

/-- Runs the emitted `_store_host_data` calls (lines 344-357) in order.
Returns the sequence of `hostvars` assignments and the sequence of
`(group, host)` membership appends.  `server_data["interface_ip"]` is read
unconditionally, so a record without that key raises `KeyError`. -/
def runStores : List StoreCall → Except String
    (List (String × HostVars) × List (String × String))
  | [] => .ok ([], [])
  | c :: rest =>
    match c.server.interface_ip with
    | none => .error "KeyError: interface_ip"
    | some ip =>
      match runStores rest with
      | .error e => .error e
      | .ok (hv, gm) =>
        .ok ((c.host, ⟨ip, ip, c.server⟩) :: hv,
          (getGroupNamesFromServerData c.server c.namegroup).map
            (fun g => (g, c.host)) ++ gm)

/-- Insert a dict key, keeping first-insertion order (Python dict keys). -/
def insertKey (acc : List String) (k : String) : List String :=
  if k ∈ acc then acc else acc ++ [k]

/-- The key sequence of the `hostvars` dict built from a list of
assignments. -/
def dictKeys (hv : List (String × HostVars)) : List String :=
  hv.foldl (fun a p => insertKey a p.1) []

/-- `_populate_inventory_variables` (lines 411-419).  The second loop is
outside the first in the source, so it reuses the loop variable `host` after
the first loop finished: it emits `set_variable` calls only for the LAST host,
and when `self.hostvars` is empty the name `host` was never bound and Python
raises `NameError`.  Returns the `(host, variable)` pairs passed to
`inventory.set_variable`. -/
def populateInventoryVariables (hv : List (String × HostVars)) :
    Except String (List (String × String)) :=
  match (dictKeys hv).getLast? with
  | none => .error "NameError: host is not defined"
  | some h => .ok [(h, "ansible_ssh_host"), (h, "ansible_host"), (h, "openstack")]

/-- `_populate_inventory` (lines 308-317): hosts pass, then variables pass
(the groups pass runs after and only consumes `runStores`' group pairs). -/
def populateInventory (show_all use_server_id : Bool)
    (hosts_data : List Server) : Except String
    (List (String × HostVars) × List (String × String) × List (String × String)) :=
  match runStores (populateInventoryHosts show_all use_server_id hosts_data) with
  | .error e => .error e
  | .ok (hv, gm) =>
    match populateInventoryVariables hv with
    | .error e => .error e
    | .ok varCalls => .ok (hv, gm, varCalls)

/-- `_get_hosts_data_from_openstack` (lines 254-273).  `list_hosts` is the
external collaborator, called with the `fail_on_errors` flag; when it raises,
the handler swallows the exception (the `return` in `finally` also swallows
the secondary `AttributeError` on `e.message`) and the initial `hosts_data =
[]` is returned. -/
def getHostsDataFromOpenstack (fail_on_errors : Bool)
    (listHosts : Bool → Except String (List Server)) : List Server :=
  match listHosts fail_on_errors with
  | .ok hosts => hosts
  | .error _ => []

/-- A discovered cloud account object. -/
structure Cloud where
  name : String
deriving DecidableEq, Repr

/-- The attribute `self.only_clouds` read in the selection loop (line 298):
`_load_and_verify_plugin_config` assigns only `expand_hostvars`,
`fail_on_errors` and `show_all`, so this attribute is never defined on the
instance; reading it raises `AttributeError`.  Modelled as `none`. -/
def selfOnlyCloudsAttr : Option (List String) := none

/-- The selection loop of `_get_openstack_clouds_inventory` (lines 294-301):
for each discovered cloud, test `cloud.name in self.only_clouds`; the
attribute read raises when the attribute is absent. -/
def selectClouds (attr : Option (List String)) :
    List Cloud → Except String (List Cloud)
  | [] => .ok []
  | c :: cs =>
    match attr with
    | none => .error "AttributeError: only_clouds"
    | some names =>
      match selectClouds attr cs with
      | .error e => .error e
      | .ok rest => .ok (if c.name ∈ names then c :: rest else rest)

/-- `_get_openstack_clouds_inventory` (lines 283-306), restricted to its cloud
selection: `only_clouds` is `self._config_data.get("only_clouds", None)`;
when it is falsy (absent or empty list) the discovered clouds are kept as-is,
otherwise the selection loop runs. -/
def getOpenstackCloudsInventory (only_clouds : Option (List String))
    (attr : Option (List String)) (clouds : List Cloud) :
    Except String (List Cloud) :=
  match only_clouds with
  | none => .ok clouds
  | some oc =>
    if oc = [] then .ok clouds
    else selectClouds attr clouds

/-- A YAML value as parsed from the plugin config file. -/
inductive Yaml where
  | bool (b : Bool)
  | str (s : String)
  | num (n : Int)
  | list (xs : List Yaml)
  | dict (kvs : List (String × Yaml))

/-- Python truthiness of a YAML value. -/
def Yaml.truthy : Yaml → Bool
  | .bool b => b
  | .str s => decide (s ≠ "")
  | .num n => decide (n ≠ 0)
  | .list xs => !xs.isEmpty
  | .dict kvs => !kvs.isEmpty

/-- `isinstance(v, list)`. -/
def Yaml.isList : Yaml → Bool
  | .list _ => true
  | _ => false

/-- `isinstance(v, bool)`. -/
def Yaml.isBool : Yaml → Bool
  | .bool _ => true
  | _ => false

/-- The plugin NAME (source line 152). -/
def NAME : String := "openstack-inventory"

/-- `data["plugin"] == self.NAME`. -/
def isPluginName : Yaml → Bool
  | .str s => decide (s = NAME)
  | _ => false

/-- The parsed config file: a YAML mapping. -/
def ConfigData := List (String × Yaml)

/-- `key in data`. -/
def hasKey (data : ConfigData) (k : String) : Bool :=
  (List.lookup k data).isSome

/-- One check of `_verify_config_data_types`: `v = data.get(key); if v and
not isinstance(v, T): return False`.  Falsy values pass regardless of type. -/
def optTypeOk (data : ConfigData) (key : String) (pred : Yaml → Bool) : Bool :=
  match List.lookup key data with
  | none => true
  | some v => !v.truthy || pred v

/-- `_verify_config_data_types` (lines 210-242). -/
def verifyConfigDataTypes (data : ConfigData) : Bool :=
  optTypeOk data "clouds_yaml_path" Yaml.isList
  && optTypeOk data "debug" Yaml.isBool
  && optTypeOk data "expand_hostvars" Yaml.isBool
  && optTypeOk data "fail_on_errors" Yaml.isBool
  && optTypeOk data "only_clouds" Yaml.isList
  && optTypeOk data "show_all" Yaml.isBool

/-- `_verify_config_data` (lines 193-208): `some msg` means the error raised
as `AnsibleParserError(msg)`, `none` means verification passed. -/
def verifyConfigData (data : ConfigData) : Option String :=
  if data.isEmpty then some "Config file is empty."
  else
    match List.lookup "plugin" data with
    | some v =>
      if !isPluginName v then some "Incorrect plugin config found"
      else if !verifyConfigDataTypes data then some "Invalid config data type"
      else none
    | none =>
      if !hasKey data "clouds" then some "Missing plugin and clouds configuration"
      else if !verifyConfigDataTypes data then some "Invalid config data type"
      else none

/-- `self._config_data.get(k, False)`. -/
def cfgGetBool (cfg : ConfigData) (k : String) : Yaml :=
  match List.lookup k cfg with
  | some v => v
  | none => .bool false

/-- `_load_and_verify_plugin_config` (lines 172-191): verify, then if the file
has a top-level `clouds` key discard the whole config (`self._config_data =
dict()`), then read the three instance flags with default `False`.  Returns
the effective config together with `expand_hostvars`, `fail_on_errors`,
`show_all`. -/
def loadAndVerifyPluginConfig (data : ConfigData) :
    Except String (ConfigData × Yaml × Yaml × Yaml) :=
  match verifyConfigData data with
  | some e => .error e
  | none =>
    let cfg := if hasKey data "clouds" then [] else data
    .ok (cfg, cfgGetBool cfg "expand_hostvars", cfgGetBool cfg "fail_on_errors",
      cfgGetBool cfg "show_all")

/-- `verify_file` (lines 436-444): base-class verification, then the path is
accepted when it ends with `fn ++ "." ++ sfx` for `fn` in
`("openstack", "clouds")` and `sfx` in `("yaml", "yml")`. -/
def verifyFile (superVerify : Bool) (path : String) : Bool :=
  superVerify &&
    (["openstack", "clouds"].any (fun fn =>
      ["yaml", "yml"].any (fun sfx => pyEndsWith path (fn ++ "." ++ sfx))))

/-! ## Helper lemmas -/

lemma dedup_all_eq {α : Type} [DecidableEq α] (a : α) :
    ∀ l : List α, l ≠ [] → (∀ x ∈ l, x = a) → l.dedup = [a] := by
  intro l
  induction l with
  | nil => intro h; exact absurd rfl h
  | cons x xs ih =>
    intro _ hall
    have hx : x = a := hall x (List.mem_cons_self _ _)
    subst hx
    by_cases hmem : x ∈ xs
    · rw [List.dedup_cons_of_mem hmem]
      refine ih ?_ (fun y hy => hall y (List.mem_cons_of_mem _ hy))
      intro hnil
      rw [hnil] at hmem
      exact absurd hmem (List.not_mem_nil _)
    · have hxs : xs = [] := by
        cases xs with
        | nil => rfl
        | cons y ys =>
          exfalso
          apply hmem
          have hy : y = x := hall y (List.mem_cons_of_mem _ (List.mem_cons_self _ _))
          rw [← hy]
          exact List.mem_cons_self _ _
      subst hxs
      rfl

lemma dedup_len_ne_one {α : Type} [DecidableEq α] {l : List α} {x y : α}
    (hx : x ∈ l) (hy : y ∈ l) (hxy : x ≠ y) : ¬ l.dedup.length = 1 := by
  intro h1
  obtain ⟨a, ha⟩ := List.length_eq_one.mp h1
  have hxa : x = a := by
    have hm := List.mem_dedup.mpr hx
    rw [ha] at hm
    simpa using hm
  have hya : y = a := by
    have hm := List.mem_dedup.mpr hy
    rw [ha] at hm
    simpa using hm
  exact hxy (hxa.trans hya.symm)

lemma server_mem_of_mem_processPartition {u : Bool} {nm : String}
    {sd : List Server} {c : StoreCall} (h : c ∈ processPartition u nm sd) :
    c.server ∈ sd := by
  unfold processPartition at h
  split at h
  · cases sd with
    | nil => simp at h
    | cons s rest =>
      simp at h
      subst h
      exact List.mem_cons_self _ _
  · split at h
    · cases sd with
      | nil => simp at h
      | cons s rest =>
        simp at h
        subst h
        exact List.mem_cons_self _ _
    · obtain ⟨s, hs, hc⟩ := List.mem_map.mp h
      rw [← hc]
      exact hs

lemma mem_of_mem_addToPartitions {x : Server} {n : String} :
    ∀ {ps : List (String × List Server)} {p : List Server},
      (n, p) ∈ addToPartitions ps x → ∀ {s : Server}, s ∈ p →
      s = x ∨ ∃ q, (n, q) ∈ ps ∧ s ∈ q := by
  intro ps
  induction ps with
  | nil =>
    intro p h s hs
    simp [addToPartitions] at h
    obtain ⟨_, hp⟩ := h
    subst hp
    simp at hs
    exact Or.inl hs
  | cons hd tl ih =>
    intro p h s hs
    obtain ⟨m, l⟩ := hd
    simp only [addToPartitions] at h
    split at h
    · rcases List.mem_cons.mp h with h1 | h2
      · have hn : n = m ∧ p = l ++ [x] := by simpa using h1
        obtain ⟨hn1, hn2⟩ := hn
        subst hn1
        subst hn2
        rcases List.mem_append.mp hs with hl | hr
        · exact Or.inr ⟨l, List.mem_cons_self _ _, hl⟩
        · simp at hr
          exact Or.inl hr
      · exact Or.inr ⟨p, List.mem_cons_of_mem _ h2, hs⟩
    · rcases List.mem_cons.mp h with h1 | h2
      · have hn : n = m ∧ p = l := by simpa using h1
        obtain ⟨hn1, hn2⟩ := hn
        subst hn1
        subst hn2
        exact Or.inr ⟨p, List.mem_cons_self _ _, hs⟩
      · rcases ih h2 hs with h3 | ⟨q, hq, hsq⟩
        · exact Or.inl h3
        · exact Or.inr ⟨q, List.mem_cons_of_mem _ hq, hsq⟩

lemma mem_of_mem_groupFold :
    ∀ (l : List Server) (acc : List (String × List Server)) {n : String}
      {p : List Server}, (n, p) ∈ l.foldl addToPartitions acc →
      ∀ {s : Server}, s ∈ p → s ∈ l ∨ ∃ q, (n, q) ∈ acc ∧ s ∈ q := by
  intro l
  induction l with
  | nil =>
    intro acc n p h s hs
    exact Or.inr ⟨p, h, hs⟩
  | cons x xs ih =>
    intro acc n p h s hs
    rcases ih (addToPartitions acc x) h hs with h1 | ⟨q, hq, hsq⟩
    · exact Or.inl (List.mem_cons_of_mem _ h1)
    · rcases mem_of_mem_addToPartitions hq hsq with h2 | ⟨r, hr, hsr⟩
      · rw [h2]
        exact Or.inl (List.mem_cons_self _ _)
      · exact Or.inr ⟨r, hr, hsr⟩

lemma server_mem_of_mem_groupByName {l : List Server} {n : String}
    {p : List Server} (h : (n, p) ∈ groupByName l) {s : Server} (hs : s ∈ p) :
    s ∈ l := by
  rcases mem_of_mem_groupFold l [] h hs with h1 | ⟨q, hq, _⟩
  · exact h1
  · simp at hq

lemma runStores_ok_mem :
    ∀ {calls : List StoreCall} {hv : List (String × HostVars)}
      {gm : List (String × String)}, runStores calls = .ok (hv, gm) →
      (∀ p ∈ hv, ∃ c ∈ calls, p.1 = c.host ∧ p.2.openstack = c.server) ∧
      (∀ q ∈ gm, ∃ c ∈ calls, q.2 = c.host) := by
  intro calls
  induction calls with
  | nil =>
    intro hv gm h
    simp only [runStores, Except.ok.injEq, Prod.mk.injEq] at h
    obtain ⟨h1, h2⟩ := h
    subst h1
    subst h2
    exact ⟨fun p hp => absurd hp (List.not_mem_nil _),
      fun q hq => absurd hq (List.not_mem_nil _)⟩
  | cons c rest ih =>
    intro hv gm h
    unfold runStores at h
    cases hip : c.server.interface_ip with
    | none =>
      rw [hip] at h
      simp at h
    | some ip =>
      rw [hip] at h
      cases hrest : runStores rest with
      | error e =>
        rw [hrest] at h
        simp at h
      | ok pr =>
        obtain ⟨hv0, gm0⟩ := pr
        rw [hrest] at h
        simp only [Except.ok.injEq, Prod.mk.injEq] at h
        obtain ⟨h1, h2⟩ := h
        subst h1
        subst h2
        obtain ⟨ihv, igm⟩ := ih hrest
        constructor
        · intro p hp
          rcases List.mem_cons.mp hp with h3 | h4
          · subst h3
            exact ⟨c, List.mem_cons_self _ _, rfl, rfl⟩
          · obtain ⟨d, hd, hd1, hd2⟩ := ihv p h4
            exact ⟨d, List.mem_cons_of_mem _ hd, hd1, hd2⟩
        · intro q hq
          rcases List.mem_append.mp hq with h3 | h4
          · obtain ⟨g, _, hg⟩ := List.mem_map.mp h3
            exact ⟨c, List.mem_cons_self _ _, by rw [← hg]⟩
          · obtain ⟨d, hd, hd1⟩ := igm q h4
            exact ⟨d, List.mem_cons_of_mem _ hd, hd1⟩

/-! ## Claim C1 -/

/-- C1: in mode `"name"`, a name-partition in which all records share one id
collapses to a single `_store_host_data` call keyed by the partition name with
`namegroup = false`; a partition containing two distinct ids yields one call
per record, keyed by the record id, each with `namegroup = true`. -/
theorem name_mode_partition_policy (nm : String) (part : List Server)
    (s0 : Server) (h0 : part.head? = some s0) :
    ((∀ s ∈ part, s.id = s0.id) →
      processPartition (useServerIdFlag "name") nm part = [⟨nm, s0, false⟩]) ∧
    ((∃ s ∈ part, ∃ t ∈ part, s.id ≠ t.id) →
      processPartition (useServerIdFlag "name") nm part
        = part.map (fun s => ⟨s.id, s, true⟩)) := by
  have hu : useServerIdFlag "name" = false := rfl
  rw [hu]
  cases part with
  | nil => simp at h0
  | cons s rest =>
    have hs0 : s = s0 := by simpa using h0
    subst hs0
    constructor
    · intro hall
      cases rest with
      | nil => rfl
      | cons r rs =>
        have hdedup : ((s :: r :: rs).map Server.id).dedup = [s.id] := by
          apply dedup_all_eq
          · simp
          · intro x hx
            obtain ⟨t, ht, htx⟩ := List.mem_map.mp hx
            rw [← htx]
            exact hall t ht
        unfold processPartition
        rw [if_neg (by simp), if_pos (by rw [hdedup]; exact ⟨rfl, rfl⟩)]
    · rintro ⟨a, ha, b, hb, hab⟩
      have h1 : ¬((s :: rest).length = 1 ∧ false = false) := by
        rintro ⟨hlen, -⟩
        obtain ⟨x, hx⟩ := List.length_eq_one.mp hlen
        rw [hx] at ha hb
        simp at ha hb
        rw [ha, hb] at hab
        exact hab rfl
      have h2 : ¬((((s :: rest).map Server.id).dedup).length = 1 ∧ false = false) := by
        rintro ⟨hlen, -⟩
        exact dedup_len_ne_one (List.mem_map_of_mem _ ha)
          (List.mem_map_of_mem _ hb) hab hlen
      unfold processPartition
      rw [if_neg h1, if_neg h2]

def srvDupA : Server :=
  ⟨"idA", "dup", "c", "r", none, some "10.0.0.1", none, none, []⟩

def srvDupB : Server :=
  ⟨"idB", "dup", "c", "r", none, some "10.0.0.2", none, none, []⟩

/-- Witness for C1 at a concrete two-record partition with distinct ids. -/
theorem name_mode_partition_policy_witness :
    processPartition (useServerIdFlag "name") "dup" [srvDupA, srvDupB]
      = [⟨"idA", srvDupA, true⟩, ⟨"idB", srvDupB, true⟩] := by
  have h := name_mode_partition_policy "dup" [srvDupA, srvDupB] srvDupA rfl
  rw [h.2 ⟨srvDupA, by simp, srvDupB, by simp, by decide⟩]
  rfl

/-! ## Claim C2 -/

/-- C2: with `show_all = false` every record lacking `interface_ip` is dropped
before host-table construction: every `_store_host_data` call carries a record
with `interface_ip`; the emitted calls equal those for the pre-filtered input;
and in the resulting host-variable table every entry holds a record with
`interface_ip`, while every group-membership pair names a host that comes from
one of those calls. -/
theorem show_all_false_drops_no_ip (u : Bool) (data : List Server) :
    (∀ c ∈ populateInventoryHosts false u data,
        c.server.interface_ip.isSome = true) ∧
    populateInventoryHosts false u data
      = populateInventoryHosts false u
          (data.filter (fun s => s.interface_ip.isSome)) ∧
    (∀ hv gm, runStores (populateInventoryHosts false u data) = .ok (hv, gm) →
      (∀ p ∈ hv, p.2.openstack.interface_ip.isSome = true) ∧
      (∀ q ∈ gm, ∃ c ∈ populateInventoryHosts false u data, q.2 = c.host)) := by
  have h1 : ∀ c ∈ populateInventoryHosts false u data,
      c.server.interface_ip.isSome = true := by
    intro c hc
    unfold populateInventoryHosts at hc
    obtain ⟨pr, hpr, hcp⟩ := List.mem_flatMap.mp hc
    obtain ⟨n, p⟩ := pr
    have hsrv : c.server ∈ p := server_mem_of_mem_processPartition hcp
    have hmem : c.server ∈ filterUnreachable false data :=
      server_mem_of_mem_groupByName hpr hsrv
    have := List.of_mem_filter hmem
    simpa using this
  refine ⟨h1, ?_, ?_⟩
  · have hfilter : filterUnreachable false data
        = filterUnreachable false (data.filter (fun s => s.interface_ip.isSome)) := by
      unfold filterUnreachable
      have e1 : data.filter (fun s => s.interface_ip.isSome || false)
          = data.filter (fun s => s.interface_ip.isSome) := by
        apply List.filter_congr
        intro s _
        simp
      have e2 : (data.filter (fun s => s.interface_ip.isSome)).filter
            (fun s => s.interface_ip.isSome || false)
          = (data.filter (fun s => s.interface_ip.isSome)).filter
            (fun s => s.interface_ip.isSome) := by
        apply List.filter_congr
        intro s _
        simp
      rw [e1, e2, List.filter_filter]
      apply List.filter_congr
      intro s _
      simp
    unfold populateInventoryHosts
    rw [hfilter]
  · intro hv gm h
    obtain ⟨ihv, igm⟩ := runStores_ok_mem h
    constructor
    · intro p hp
      obtain ⟨c, hc, _, hopen⟩ := ihv p hp
      rw [hopen]
      exact h1 c hc
    · exact igm

def srvHasIp : Server :=
  ⟨"idw", "nw", "cw", "rw", none, some "10.1.1.1", none, none, []⟩

def srvLacksIp : Server :=
  ⟨"idx", "nx", "cx", "rx", none, none, none, none, []⟩

/-- Witness for C2: on a concrete two-record list the single emitted call
carries the record that has an `interface_ip`. -/
theorem show_all_false_drops_no_ip_witness :
    (⟨"nw", srvHasIp, false⟩ : StoreCall).server.interface_ip.isSome = true :=
  (show_all_false_drops_no_ip false [srvHasIp, srvLacksIp]).1
    ⟨"nw", srvHasIp, false⟩ (by decide)

/-! ## Claim C3 -/

/-- C3: for any record whose metadata mapping is
`[("group", "web"), ("groups", "a, b")]`, the derived group list contains
`"web"`, `"a"`, `"b"`, `"meta-group_web"` and `"meta-groups_a, b"`: the two
reserved metadata keys drive both the explicit rules and the unexcluded
generic `meta-key_value` sweep over the raw unsplit values. -/
theorem metadata_group_groups_claim (s : Server) (ng : Bool)
    (h : s.metadata = [("group", "web"), ("groups", "a, b")]) :
    "web" ∈ getGroupNamesFromServerData s ng ∧
    "a" ∈ getGroupNamesFromServerData s ng ∧
    "b" ∈ getGroupNamesFromServerData s ng ∧
    "meta-group_web" ∈ getGroupNamesFromServerData s ng ∧
    "meta-groups_a, b" ∈ getGroupNamesFromServerData s ng := by
  obtain ⟨i, n, cl, rg, az, ip, fl, im, md⟩ := s
  simp only at h
  subst h
  have hlist : getGroupNamesFromServerData
      ⟨i, n, cl, rg, az, ip, fl, im, [("group", "web"), ("groups", "a, b")]⟩ ng =
    [cl] ++ (if rg ≠ "" then [rg] else []) ++ [cl ++ "_" ++ rg]
    ++ ["web"] ++ ["a", "b"] ++ ["instance-" ++ i]
    ++ (if ng then [n] else [])
    ++ (match fl with | some x => ["flavor-" ++ x] | none => [])
    ++ (match im with | some x => ["image-" ++ x] | none => [])
    ++ ["meta-group_web", "meta-groups_a, b"]
    ++ (match az with
        | some a =>
          if a ≠ "" then [a, rg ++ "_" ++ a, cl ++ "_" ++ rg ++ "_" ++ a] else []
        | none => []) := rfl
  rw [hlist]
  refine ⟨?_, ?_, ?_, ?_, ?_⟩ <;> simp

def srvMeta3 : Server :=
  ⟨"i3", "n3", "c3", "r3", none, some "10.0.3.3", none, none,
    [("group", "web"), ("groups", "a, b")]⟩

/-- Witness for C3 at a concrete record. -/
theorem metadata_group_groups_claim_witness :
    "web" ∈ getGroupNamesFromServerData srvMeta3 false ∧
    "a" ∈ getGroupNamesFromServerData srvMeta3 false ∧
    "b" ∈ getGroupNamesFromServerData srvMeta3 false ∧
    "meta-group_web" ∈ getGroupNamesFromServerData srvMeta3 false ∧
    "meta-groups_a, b" ∈ getGroupNamesFromServerData srvMeta3 false :=
  metadata_group_groups_claim srvMeta3 false rfl

/-! ## Claim C4 -/

def srvWsGroups : Server :=
  ⟨"i4", "n4", "c4", "r4", none, some "10.0.0.4", none, none, [("groups", " ")]⟩

/-- Counterexample for C4: the source tests a piece for non-emptiness BEFORE
stripping it, so for `metadata["groups"] = " "` the single piece `" "` passes
the test, is stripped to `""`, and the empty string IS added as a group by
this rule — contradicting the claim that no empty-string group name is ever
added, including for whitespace-only pieces. -/
theorem groups_split_empty_piece_counterexample :
    extraGroups " " = [""] ∧
    "" ∈ getGroupNamesFromServerData srvWsGroups false := by
  exact ⟨rfl, by decide⟩

/-- C4 amended: the rule splits `metadata["groups"]` on `","`, keeps each
piece that is non-empty BEFORE stripping, strips whitespace from it, and adds
the stripped piece; consequently every kept stripped piece appears in the
derived groups, and every group this rule adds is the strip of some piece that
was non-empty before stripping (a whitespace-only piece hence yields an
empty-string group). -/
theorem groups_metadata_split (s : Server) (ng : Bool) (raw : String)
    (h : s.metadata.lookup "groups" = some raw) :
    (∀ p ∈ pySplitComma raw, p ≠ "" →
      pyStrip p ∈ getGroupNamesFromServerData s ng) ∧
    (∀ g ∈ extraGroups raw, ∃ p, p ∈ pySplitComma raw ∧ p ≠ "" ∧ g = pyStrip p) := by
  have hval : metadataGroupsValue s.metadata = raw := by
    unfold metadataGroupsValue
    rw [h]
  constructor
  · intro p hp hne
    have hmem : pyStrip p ∈ extraGroups (metadataGroupsValue s.metadata) := by
      rw [hval]
      exact List.mem_map_of_mem _ (List.mem_filter.mpr ⟨hp, by simpa using hne⟩)
    simp only [getGroupNamesFromServerData]
    exact List.mem_append.mpr (Or.inl (List.mem_append.mpr (Or.inl
      (List.mem_append.mpr (Or.inl (List.mem_append.mpr (Or.inl
      (List.mem_append.mpr (Or.inl (List.mem_append.mpr (Or.inl
      (List.mem_append.mpr (Or.inr hmem)))))))))))))
  · intro g hg
    obtain ⟨p, hp, hgp⟩ := List.mem_map.mp hg
    have hf := List.mem_filter.mp hp
    exact ⟨p, hf.1, by simpa using hf.2, hgp.symm⟩

def srvCommaGroups : Server :=
  ⟨"i4w", "n4w", "c4w", "r4w", none, some "10.0.0.5", none, none,
    [("groups", "x, y")]⟩

/-- Witness for C4 amended at a concrete record: the stripped second piece of
`"x, y"` is a derived group. -/
theorem groups_metadata_split_witness :
    pyStrip " y" ∈ getGroupNamesFromServerData srvCommaGroups false :=
  (groups_metadata_split srvCommaGroups false "x, y" rfl).1 " y"
    (by decide) (by decide)

/-! ## Claim C5 -/

/-- C5: on the empty record list the hosts pass emits no store calls and the
store pass yields an empty host-variable table and empty group membership —
but the variables pass then fails (the source reuses the loop variable `host`
after a zero-iteration loop, so Python raises `NameError`), so the full
inventory-building pass does NOT complete without raising. -/
theorem empty_input_raises_name_error :
    populateInventoryHosts false false [] = [] ∧
    runStores [] = .ok ([], []) ∧
    populateInventory false false [] = .error "NameError: host is not defined" :=
  ⟨rfl, rfl, rfl⟩

/-! ## Claim C6 -/

def srvNoIp6 : Server :=
  ⟨"id6", "n6", "c6", "r6", none, none, none, none, []⟩

/-- C6: with `show_all = true` every record passes the filter (first
conjunct), and a record lacking `interface_ip` is retained — but storing it
does NOT complete: `_store_host_data` reads `server_data["interface_ip"]`
unconditionally and raises `KeyError` (remaining conjuncts, at a concrete
record). -/
theorem show_all_true_keyerror :
    (∀ hosts_data : List Server, filterUnreachable true hosts_data = hosts_data) ∧
    populateInventoryHosts true false [srvNoIp6] = [⟨"n6", srvNoIp6, false⟩] ∧
    populateInventory true false [srvNoIp6] = .error "KeyError: interface_ip" := by
  refine ⟨?_, rfl, rfl⟩
  intro hosts_data
  unfold filterUnreachable
  simp

/-! ## Claim C7 -/

/-- C7: when `fail_on_errors` is true and `list_hosts` raises, the handler in
`_get_hosts_data_from_openstack` yields the empty host list, so no store call
is emitted — no host from any cloud reaches the inventory — and the pass then
aborts (the variables pass raises on the empty host table). -/
theorem fail_on_errors_zero_hosts
    (listHosts : Bool → Except String (List Server)) (e : String)
    (h : listHosts true = .error e) (show_all use_server_id : Bool) :
    getHostsDataFromOpenstack true listHosts = [] ∧
    populateInventoryHosts show_all use_server_id
      (getHostsDataFromOpenstack true listHosts) = [] ∧
    populateInventory show_all use_server_id
      (getHostsDataFromOpenstack true listHosts)
      = .error "NameError: host is not defined" := by
  have h0 : getHostsDataFromOpenstack true listHosts = [] := by
    unfold getHostsDataFromOpenstack
    rw [h]
  refine ⟨h0, ?_, ?_⟩ <;> rw [h0] <;> rfl

/-- Witness for C7 with a collaborator that raises for every flag value. -/
theorem fail_on_errors_zero_hosts_witness :
    getHostsDataFromOpenstack true (fun _ => .error "cloud down") = [] :=
  (fail_on_errors_zero_hosts (fun _ => .error "cloud down") "cloud down"
    rfl false false).1

/-! ## Claim C8 -/

/-- C8: an absent or empty `only_clouds` keeps every discovered cloud (first
two conjuncts) — but for a non-empty `only_clouds` the selection loop reads
the never-assigned attribute `self.only_clouds` and raises `AttributeError`
as soon as one cloud is discovered (third conjunct), instead of completing
and keeping the matching clouds. -/
theorem only_clouds_attribute_error :
    (∀ clouds : List Cloud,
      getOpenstackCloudsInventory none selfOnlyCloudsAttr clouds = .ok clouds) ∧
    (∀ clouds : List Cloud,
      getOpenstackCloudsInventory (some []) selfOnlyCloudsAttr clouds
        = .ok clouds) ∧
    getOpenstackCloudsInventory (some ["a"]) selfOnlyCloudsAttr [⟨"a"⟩]
      = .error "AttributeError: only_clouds" :=
  ⟨fun _ => rfl, fun _ => rfl, rfl⟩

/-! ## Claim C9 -/

lemma pyEndsWith_fileName (path : String) :
    pyEndsWith path (fileName path) = true := by
  have key : path.data.reverse.take
      ((path.data.reverse.takeWhile (fun c => c ≠ '/')).reverse.length)
      = (path.data.reverse.takeWhile (fun c => c ≠ '/')).reverse.reverse := by
    rw [List.length_reverse, List.reverse_reverse]
    exact (List.prefix_iff_eq_take.mp (List.takeWhile_prefix _)).symm
  show decide (path.data.reverse.take
      ((path.data.reverse.takeWhile (fun c => c ≠ '/')).reverse.length)
      = (path.data.reverse.takeWhile (fun c => c ≠ '/')).reverse.reverse) = true
  rw [key]
  simp

/-- Counterexample for C9: `verify_file` matches by `endswith`, not by file
name, so the path `"my-openstack.yml"` — whose file name is
`"my-openstack.yml"`, not one of the four accepted names — is accepted. -/
theorem verify_file_suffix_counterexample :
    verifyFile true "my-openstack.yml" = true ∧
    fileName "my-openstack.yml" = "my-openstack.yml" ∧
    ("my-openstack.yml" ∉ (["openstack.yml", "openstack.yaml", "clouds.yml",
      "clouds.yaml"] : List String)) :=
  ⟨by decide, rfl, by decide⟩

/-- C9 amended: file-name verification accepts a path exactly when the
base-class check passes and the path string ENDS WITH one of
`openstack.yaml`, `openstack.yml`, `clouds.yaml`, `clouds.yml`; in
particular every path whose file name is literally one of the four is
accepted, but so is any path merely having one of them as a suffix. -/
theorem verify_file_suffix_match (superVerify : Bool) (path : String) :
    (verifyFile superVerify path = true ↔
      superVerify = true ∧
        (pyEndsWith path "openstack.yaml" = true ∨
         pyEndsWith path "openstack.yml" = true ∨
         pyEndsWith path "clouds.yaml" = true ∨
         pyEndsWith path "clouds.yml" = true)) ∧
    (superVerify = true →
      fileName path ∈ (["openstack.yaml", "openstack.yml", "clouds.yaml",
        "clouds.yml"] : List String) →
      verifyFile superVerify path = true) := by
  have hB : (["openstack", "clouds"].any (fun fn =>
      ["yaml", "yml"].any (fun sfx => pyEndsWith path (fn ++ "." ++ sfx)))) =
      ((pyEndsWith path "openstack.yaml"
          || (pyEndsWith path "openstack.yml" || false))
        || ((pyEndsWith path "clouds.yaml"
          || (pyEndsWith path "clouds.yml" || false)) || false)) := rfl
  constructor
  · unfold verifyFile
    rw [hB]
    cases superVerify with
    | false => simp
    | true =>
      simp only [Bool.true_and, Bool.or_false, Bool.or_eq_true, true_and]
      tauto
  · intro hsup hmem
    subst hsup
    have hend := pyEndsWith_fileName path
    unfold verifyFile
    rw [hB]
    simp only [Bool.true_and, Bool.or_false]
    have hmem2 : fileName path = "openstack.yaml" ∨ fileName path = "openstack.yml"
        ∨ fileName path = "clouds.yaml" ∨ fileName path = "clouds.yml" := by
      simpa using hmem
    rcases hmem2 with h | h | h | h <;> rw [h] at hend <;> simp [hend]

/-- Witness for C9 amended: a correctly named path is accepted. -/
theorem verify_file_suffix_match_witness :
    verifyFile true "/etc/ansible/clouds.yaml" = true :=
  (verify_file_suffix_match true "/etc/ansible/clouds.yaml").2 rfl (by decide)

/-! ## Claim C10 -/

/-- Counterexample for C10: a config mapping with a top-level `clouds` key and
no `plugin` key can still FAIL verification — the option type checks run on
the third `elif` branch: here `debug` is a truthy non-boolean, so
`_verify_config_data` raises `Invalid config data type` instead of
succeeding. -/
theorem clouds_config_type_error_counterexample :
    hasKey [("clouds", Yaml.dict []), ("debug", Yaml.str "x")] "clouds" = true ∧
    hasKey [("clouds", Yaml.dict []), ("debug", Yaml.str "x")] "plugin" = false ∧
    loadAndVerifyPluginConfig [("clouds", Yaml.dict []), ("debug", Yaml.str "x")]
      = .error "Invalid config data type" :=
  ⟨rfl, rfl, rfl⟩

/-- C10 amended: for every config mapping that contains a top-level `clouds`
key, lacks the `plugin` discriminator, and whose option values pass the type
checks of `_verify_config_data_types`, verification succeeds and the entire
config is then discarded: the effective config is empty, so
`expand_hostvars`, `fail_on_errors` and `show_all` take their default
`False`, and every other option reads as absent from the effective config. -/
theorem clouds_config_discarded (data : ConfigData)
    (hc : hasKey data "clouds" = true)
    (hp : hasKey data "plugin" = false)
    (ht : verifyConfigDataTypes data = true) :
    loadAndVerifyPluginConfig data
      = .ok ([], .bool false, .bool false, .bool false) ∧
    (∀ k : String, List.lookup k ([] : ConfigData) = none) := by
  have hne : data.isEmpty = false := by
    cases data with
    | nil => simp [hasKey, List.lookup] at hc
    | cons a l => rfl
  have hplug : List.lookup "plugin" data = none := by
    unfold hasKey at hp
    cases hl : List.lookup "plugin" data with
    | none => rfl
    | some v => rw [hl] at hp; simp at hp
  refine ⟨?_, fun k => rfl⟩
  unfold loadAndVerifyPluginConfig verifyConfigData
  rw [hne, hplug, hc, ht]
  simp [cfgGetBool]

/-- Witness for C10 amended at a minimal clouds-style config. -/
theorem clouds_config_discarded_witness :
    loadAndVerifyPluginConfig [("clouds", Yaml.dict [])]
      = .ok ([], .bool false, .bool false, .bool false) :=
  (clouds_config_discarded [("clouds", Yaml.dict [])] rfl rfl rfl).1

end OpenstackInventory
